import Mathlib

/-!
Verification development for the `ppu-paddle-ocr` OCR pipeline.

The definitions below are shallow embeddings of the TypeScript sources:

* `src/processor/recognition.service.ts` — CTC greedy decoding, per-box
  recognition fan-out, the `ImageCache` LRU cache and its fingerprint.
* `src/processor/detection.service.ts` — detection postprocessing (box
  padding, clamping and rescaling).
* `src/processor/deskew.service.ts` — the consensus skew-angle estimator
  and the `PaddleOcrService` orchestrator (lifecycle, dictionary loading,
  grouped/flattened result shaping).

JavaScript numbers are modelled as `Rat` (exact rationals) where the code
performs real arithmetic, as `Int` where the code produces integers, and
machine 32-bit wraparound is made explicit through `toInt32`.
-/

namespace PpuPaddleOcr

/-! ## JavaScript numeric primitives -/

/-- JavaScript `ToInt32`: reduce an integer to the signed 32-bit range
`[-2^31, 2^31)`.  This is the conversion applied by the bitwise operators
(`<<`, `&`) in `ImageCache.generateKey`. -/
def toInt32 (n : Int) : Int :=
  ((n + 2147483648) % 4294967296) - 2147483648

/-- JavaScript `Math.round`: round half-up (toward positive infinity). -/
def jsRound (q : Rat) : Int :=
  ⌊q + 1/2⌋

/-! ## ImageCache fingerprint (`recognition.service.ts`, `ImageCache.generateKey`)

The JS code is
`hash = (hash << 5) - hash + view[i]; hash = hash & hash;`
iterated over the first `min(1024, length)` bytes, emitting the string
`` `${hash}_${view.length}` ``.  `hash << 5` is `ToInt32(hash * 32)`; the
subtraction and byte addition are exact in double precision at these
magnitudes; `hash & hash` is `ToInt32` of the intermediate value. -/

/-- Hash loop of `ImageCache.generateKey`, embedded from the source. -/
def generateKeyHash : Int → List Nat → Int
  | h, [] => h
  | h, b :: rest => generateKeyHash (toInt32 (toInt32 (h * 32) - h + b)) rest

/-- Source `ImageCache.generateKey`, embedded from the source: hash of the first
`min(1024, length)` bytes, then the string `"{hash}_{length}"`. -/
def generateKey (bytes : List Nat) : String :=
  let len := min bytes.length 1024
  let hash := generateKeyHash 0 (bytes.take len)
  toString hash ++ "_" ++ toString bytes.length

/-- Fingerprint recurrence as the specification words it: over the first
`min(1024, length)` bytes, `hash ← hash * 31 + byte` with 32-bit
wraparound, starting from 0. -/
def fingerprintSpecHash : Int → List Nat → Int
  | h, [] => h
  | h, b :: rest => fingerprintSpecHash (toInt32 (h * 31 + b)) rest

/-- Fingerprint as the specification words it: `"{hash}_{length}"` with
`length` the total byte length and `hash` the `·31 + byte` recurrence over
the first `min(1024, length)` bytes. -/
def fingerprintSpec (bytes : List Nat) : String :=
  toString (fingerprintSpecHash 0 (bytes.take (min 1024 bytes.length)))
    ++ "_" ++ toString bytes.length

/-- A byte view over a backing allocation, with an offset and a length:
the model of a `Uint8Array`/`Buffer` view that may alias a larger parent
buffer at a non-zero offset. -/
structure ByteBuffer where
  backing : List Nat
  byteOffset : Nat
  byteLength : Nat

/-- The logical byte content exposed by a view. -/
def ByteBuffer.logicalBytes (b : ByteBuffer) : List Nat :=
  (b.backing.drop b.byteOffset).take b.byteLength

/-! ## Dictionary loading (`deskew.service.ts`, `PaddleOcrService`)

`initialize`, `changeTextDictionary` and the per-call dictionary override
in `recognize` all run the same code:
`charactersDictionary = dictionaryContent.split("\n")` followed by
`if (charactersDictionary.length === 0) throw new Error(...)`. -/

/-- Error message thrown by the dictionary-emptiness check. -/
def invalidDictionaryMessage : String :=
  "Character dictionary is empty or could not be loaded."

/-- JavaScript `String.prototype.split("\n")` over the character list:
cut at every newline; the result always has at least one element (the
empty input yields `[[]]`). -/
def splitLines : List Char → List (List Char)
  | [] => [[]]
  | c :: rest =>
      match splitLines rest with
      | [] => [[]]
      | line :: lines =>
          if c = '\n' then [] :: line :: lines else (c :: line) :: lines

/-- JavaScript `content.split("\n")` on a string. -/
def splitNewline (s : String) : List String :=
  (splitLines s.data).map (fun cs => String.mk cs)

/-- Shared dictionary-load logic of `initialize`, `changeTextDictionary`
and the `recognize` per-call override, embedded from the source. -/
def loadCharactersDictionary (dictionaryContent : String) :
    Except String (List String) :=
  let charactersDictionary := splitNewline dictionaryContent
  if charactersDictionary.length = 0 then
    Except.error invalidDictionaryMessage
  else
    Except.ok charactersDictionary

/-! ## PaddleOcrService lifecycle (`deskew.service.ts`, `PaddleOcrService`)

The service holds two nullable session fields; `isInitialized` is true
when both are non-null.  `recognize` and `deskewImage` begin with
`if (!this.isInitialized()) throw new Error("PaddleOcrService is not
initialized. Call initialize() first.")`; `changeDetectionModel`,
`changeRecognitionModel`, `changeTextDictionary` and `destroy` contain no
such check.  Session handles are abstracted as `Nat` identifiers; the
work a guarded operation would perform after its guard is abstracted as a
value of an arbitrary type. -/

/-- The two nullable inference-session fields of `PaddleOcrService`. -/
structure PaddleOcrState where
  detectionSession : Option Nat
  recognitionSession : Option Nat
deriving DecidableEq

/-- Error message of the not-initialized guard. -/
def notInitializedMessage : String :=
  "PaddleOcrService is not initialized. Call initialize() first."

/-- Source `PaddleOcrService.isInitialized`: both sessions non-null. -/
def isInitialized (s : PaddleOcrState) : Bool :=
  s.detectionSession.isSome && s.recognitionSession.isSome

/-- Guard at the top of `PaddleOcrService.recognize`: throw before any
other work when not initialized, otherwise proceed to the pipeline work
(abstracted as `work`). -/
def recognizeGuard {α : Type} (s : PaddleOcrState) (work : α) :
    Except String α :=
  if isInitialized s then Except.ok work
  else Except.error notInitializedMessage

/-- Guard at the top of `PaddleOcrService.deskewImage`: identical to the
`recognize` guard. -/
def deskewImageGuard {α : Type} (s : PaddleOcrState) (work : α) :
    Except String α :=
  if isInitialized s then Except.ok work
  else Except.error notInitializedMessage

/-- Source `PaddleOcrService.changeDetectionModel`: releases the prior session
and installs the new one; the source performs no initialization check. -/
def changeDetectionModel (s : PaddleOcrState) (modelBuffer : Nat) :
    Except String PaddleOcrState :=
  Except.ok { s with detectionSession := some modelBuffer }

/-- Source `PaddleOcrService.changeRecognitionModel`: releases the prior session
and installs the new one; the source performs no initialization check. -/
def changeRecognitionModel (s : PaddleOcrState) (modelBuffer : Nat) :
    Except String PaddleOcrState :=
  Except.ok { s with recognitionSession := some modelBuffer }

/-- Source `PaddleOcrService.changeTextDictionary`: parses the new dictionary
(the sessions are untouched); the source performs no initialization
check. -/
def changeTextDictionary (s : PaddleOcrState) (dictionaryContent : String) :
    Except String (PaddleOcrState × List String) :=
  match loadCharactersDictionary dictionaryContent with
  | Except.error e => Except.error e
  | Except.ok d => Except.ok (s, d)

/-- Source `PaddleOcrService.destroy`: releases both sessions and nulls the
fields; it never throws and performs no initialization check. -/
def destroy (s : PaddleOcrState) : Except String PaddleOcrState :=
  Except.ok { detectionSession := none, recognitionSession := none }

/-! ## Result shaping (`deskew.service.ts`, `processRecognition` and the
`recognize` flatten branch) -/

/-- A detected box; JS numbers modelled as exact rationals. -/
structure Box where
  x : Rat
  y : Rat
  width : Rat
  height : Rat
deriving DecidableEq

/-- One per-box recognition outcome (`recognition.service.ts`). -/
structure RecognitionResult where
  text : String
  box : Box
  confidence : Rat
deriving DecidableEq

/-- Grouped result shape (`PaddleOcrResult`). -/
structure PaddleOcrResult where
  text : String
  lines : List (List RecognitionResult)
  confidence : Rat
deriving DecidableEq

/-- Flattened result shape (`FlattenedPaddleOcrResult`). -/
structure FlattenedPaddleOcrResult where
  text : String
  results : List RecognitionResult
  confidence : Rat
deriving DecidableEq

/-- Loop of `processRecognition` (indices `i = 1..`): threads the
previous element, the closed lines, the current line, the accumulated
text and the running average height of the current line. -/
def groupLoop : List RecognitionResult → RecognitionResult →
    List (List RecognitionResult) → List RecognitionResult → String →
    Rat → String × List (List RecognitionResult)
  | [], _, lines, currentLine, fullText, _ =>
      (fullText, if 0 < currentLine.length then lines ++ [currentLine] else lines)
  | current :: rest, previous, lines, currentLine, fullText, avgHeight =>
      let verticalGap := |current.box.y - previous.box.y|
      let threshold := avgHeight * (1/2)
      if verticalGap ≤ threshold then
        let newLine := currentLine ++ [current]
        let newAvg := (newLine.map (fun r => r.box.height)).sum / newLine.length
        groupLoop rest current lines newLine (fullText ++ " " ++ current.text) newAvg
      else
        groupLoop rest current (lines ++ [currentLine]) [current]
          (fullText ++ "\n" ++ current.text) current.box.height

/-- Source `PaddleOcrService.processRecognition`: overall confidence is the mean
of all per-result confidences; the text and lines come from the
sequential grouping sweep. -/
def processRecognition (recognition : List RecognitionResult) :
    PaddleOcrResult :=
  match recognition with
  | [] => { text := "", lines := [], confidence := 0 }
  | first :: rest =>
      let totalConfidence := (recognition.map (fun r => r.confidence)).sum
      let confidence := totalConfidence / recognition.length
      let p := groupLoop rest first [] [first] first.text first.box.height
      { text := p.1, lines := p.2, confidence := confidence }

/-- The `recognize` return value when `options.flatten` is false. -/
def recognizeGrouped (recognition : List RecognitionResult) :
    PaddleOcrResult :=
  processRecognition recognition

/-- The `recognize` return value when `options.flatten` is true: text and
confidence from `processRecognition`, results the raw recognition list. -/
def recognizeFlattened (recognition : List RecognitionResult) :
    FlattenedPaddleOcrResult :=
  { text := (processRecognition recognition).text
    results := recognition
    confidence := (processRecognition recognition).confidence }

/-! ## CTC greedy decoding (`recognition.service.ts`)

`ctcGreedyDecode(logits, sequenceLength, numClasses, charDict)` walks the
`[T, C]` logits (modelled as a list of `T` rows of `C` rationals), takes
the argmax of each row, and appends characters subject to the
blank/duplicate skip rule.  `BLANK_INDEX = 0`, `UNK_TOKEN = "<unk>"`. -/

/-- Argmax scan of `findMaxProbabilityClass`: strict `>` keeps the first
maximum. -/
def findMaxAux : Rat → Nat → Nat → List Rat → Rat × Nat
  | maxProb, maxIndex, _, [] => (maxProb, maxIndex)
  | maxProb, maxIndex, c, p :: rest =>
      if maxProb < p then findMaxAux p c (c + 1) rest
      else findMaxAux maxProb maxIndex (c + 1) rest

/-- Source `findMaxProbabilityClass` over one timestep row.  The source starts
from `-Infinity`, so the first entry always seeds the scan; rows are
never empty (`numClasses` entries each). -/
def findMaxProbabilityClass (row : List Rat) : Rat × Nat :=
  match row with
  | [] => (0, 0)
  | p :: rest => findMaxAux p 0 1 rest

/-- The unknown-token sentinel string. -/
def UNK_TOKEN : String := "<unk>"

/-- Source `appendCharacterToText`: at the final dictionary index append a space
unless the entry is the unknown token (append nothing); otherwise append
the dictionary entry.  `none` means nothing is appended. -/
def appendCharacterToText (index : Nat) (charDict : List String) :
    Option String :=
  let char := charDict.getD index ""
  if index = charDict.length - 1 then
    if char = UNK_TOKEN then none else some " "
  else some char

/-- Main loop of `ctcGreedyDecode`: `lastCharIndex` starts at `-1` and is
updated to the argmax class on every timestep, skipped or not. -/
def ctcLoop (charDict : List String) :
    List (List Rat) → Int → String → List Rat → String × List Rat
  | [], _, decodedText, charConfidences => (decodedText, charConfidences)
  | row :: rest, lastCharIndex, decodedText, charConfidences =>
      let m := findMaxProbabilityClass row
      let maxProb := m.1
      let predictedClassIndex := m.2
      if predictedClassIndex = 0 ∨ (predictedClassIndex : Int) = lastCharIndex then
        ctcLoop charDict rest predictedClassIndex decodedText charConfidences
      else if predictedClassIndex < charDict.length then
        match appendCharacterToText predictedClassIndex charDict with
        | some ch =>
            ctcLoop charDict rest predictedClassIndex (decodedText ++ ch)
              (charConfidences ++ [maxProb])
        | none => ctcLoop charDict rest predictedClassIndex decodedText charConfidences
      else
        ctcLoop charDict rest predictedClassIndex decodedText charConfidences

/-- Source `ctcGreedyDecode`: decoded text plus mean per-symbol confidence (0
when nothing was appended). -/
def ctcGreedyDecode (logits : List (List Rat)) (charDict : List String) :
    String × Rat :=
  let p := ctcLoop charDict logits (-1) "" []
  let confidence :=
    if 0 < p.2.length then p.2.sum / p.2.length else 0
  (p.1, confidence)

/-- Collapse of consecutive duplicate argmax classes, tracking the
previous raw class (initially `-1`): the reference skip rule of the
amended claim. -/
def collapseRepeatsAux : Int → List Nat → List Nat
  | _, [] => []
  | prev, c :: rest =>
      if (c : Int) = prev then collapseRepeatsAux prev rest
      else c :: collapseRepeatsAux c rest

/-- Collapse of consecutive duplicates starting from no previous class. -/
def collapseRepeats (classes : List Nat) : List Nat :=
  collapseRepeatsAux (-1) classes

/-- Emission of a class sequence through the dictionary append rule. -/
def emitText (charDict : List String) (classes : List Nat) : String :=
  classes.foldl (fun acc i => acc ++ (appendCharacterToText i charDict).getD "") ""

/-! ## Per-box recognition fan-out (`recognition.service.ts`)

`run` filters out boxes with non-positive dimensions, then maps
`processBox` over the remaining boxes (`Promise.all`) and keeps the
non-null results.  `processBox` wraps crop + preprocess + inference +
decode in a try/catch and returns `null` on any failure; that fallible
work is abstracted as a function from a box to an `Except`. -/

/-- Minimum crop width constant (`MIN_CROP_WIDTH`). -/
def MIN_CROP_WIDTH : Nat := 8

/-- Fallible dimension computation of `preprocessImage`: throws when the
crop has a zero dimension, otherwise resizes to the target height with
width `max(8, round(height × aspect))`. -/
def preprocessImageSize (originalWidth originalHeight imageHeight : Rat) :
    Except String (Rat × Rat) :=
  if originalHeight = 0 ∨ originalWidth = 0 then
    Except.error ("Crop dimensions are zero: " ++ toString originalWidth
      ++ "x" ++ toString originalHeight)
  else
    let aspectRatio := originalWidth / originalHeight
    let resizedWidth :=
      max ((MIN_CROP_WIDTH : Int) : Rat) ((jsRound (imageHeight * aspectRatio) : Int) : Rat)
    Except.ok (resizedWidth, imageHeight)

/-- Source `isValidBox`: boxes with non-positive width or height are skipped
(the index argument of the source is only used for logging). -/
def isValidBox (box : Box) : Bool :=
  if box.width ≤ 0 ∨ box.height ≤ 0 then false else true

/-- Source `filterValidBoxes`. -/
def filterValidBoxes (boxes : List Box) : List Box :=
  boxes.filter isValidBox

/-- Source `processBox`: runs the fallible per-box work (crop, preprocess,
inference, decode — abstracted as `recognizeTextFn`) under a try/catch;
a failure yields `null` (here `none`) for that box only. -/
def processBox (recognizeTextFn : Box → Except String (String × Rat))
    (box : Box) : Option RecognitionResult :=
  match recognizeTextFn box with
  | Except.ok p => some { text := p.1, box := box, confidence := p.2 }
  | Except.error _ => none

/-- Source `processBoxesInParallel`: every box is processed independently and
the null results are filtered out. -/
def processBoxesInParallel
    (recognizeTextFn : Box → Except String (String × Rat))
    (boxes : List Box) : List RecognitionResult :=
  (boxes.map (processBox recognizeTextFn)).filterMap id

/-! ## Consensus skew angle (`deskew.service.ts`, `calculateConsensusAngle`)

The source sorts a copy of the pooled measurements by angle, reads Q1 and
Q3 at `Math.floor(0.25 n)` and `Math.floor(0.75 n)` (with `?.angle || 0`
defaulting), filters the original list by the IQR fence intersected with
`[minAngle, maxAngle]`, and returns the median of the sorted set when
nothing survives, the arithmetic mean of kept angles when the total
weight is zero, and otherwise the weighted average clamped to
`[minAngle, maxAngle]`.  The locals of the source function are lifted to
named definitions. -/

/-- One pooled `(angle, weight, method)` measurement. -/
structure AngleMeasurement where
  angle : Rat
  weight : Rat
  method : String
deriving DecidableEq

/-- Stable insertion by angle (JS `sort((a, b) => a.angle - b.angle)` is
a stable comparison sort). -/
def insertByAngle (a : AngleMeasurement) :
    List AngleMeasurement → List AngleMeasurement
  | [] => [a]
  | b :: rest =>
      if b.angle ≤ a.angle then b :: insertByAngle a rest else a :: b :: rest

/-- Source `[...angles].sort((a, b) => a.angle - b.angle)`. -/
def sortByAngle (angles : List AngleMeasurement) : List AngleMeasurement :=
  angles.foldr insertByAngle []

/-- Source `q1 = sortedAngles[Math.floor(n * 0.25)]?.angle || 0`. -/
def q1Value (angles : List AngleMeasurement) : Rat :=
  (((sortByAngle angles).get? ((sortByAngle angles).length / 4)).map
    AngleMeasurement.angle).getD 0

/-- Source `q3 = sortedAngles[Math.floor(n * 0.75)]?.angle || 0`. -/
def q3Value (angles : List AngleMeasurement) : Rat :=
  (((sortByAngle angles).get? ((sortByAngle angles).length * 3 / 4)).map
    AngleMeasurement.angle).getD 0

/-- The IQR fence intersected with `[minAngle, maxAngle]`, applied to the
unsorted pooled list (source `filteredAngles`). -/
def filteredAngles (angles : List AngleMeasurement) (minAngle maxAngle : Rat) :
    List AngleMeasurement :=
  angles.filter (fun a =>
    q1Value angles - 3/2 * (q3Value angles - q1Value angles) ≤ a.angle ∧
    a.angle ≤ q3Value angles + 3/2 * (q3Value angles - q1Value angles) ∧
    minAngle ≤ a.angle ∧ a.angle ≤ maxAngle)

/-- Source `sortedAngles[Math.floor(n / 2)]?.angle || 0`. -/
def medianValue (angles : List AngleMeasurement) : Rat :=
  (((sortByAngle angles).get? ((sortByAngle angles).length / 2)).map
    AngleMeasurement.angle).getD 0

/-- Total weight of the kept measurements. -/
def totalWeightValue (angles : List AngleMeasurement)
    (minAngle maxAngle : Rat) : Rat :=
  ((filteredAngles angles minAngle maxAngle).map AngleMeasurement.weight).sum

/-- Source `DeskewService.calculateConsensusAngle`. -/
def calculateConsensusAngle (angles : List AngleMeasurement)
    (minAngle maxAngle : Rat) : Rat :=
  if angles.length = 0 then 0
  else if (filteredAngles angles minAngle maxAngle).length = 0 then
    medianValue angles
  else if totalWeightValue angles minAngle maxAngle = 0 then
    ((filteredAngles angles minAngle maxAngle).map AngleMeasurement.angle).sum
      / ((filteredAngles angles minAngle maxAngle).length : Rat)
  else
    max minAngle (min maxAngle
      (((filteredAngles angles minAngle maxAngle).map
          (fun a => a.angle * a.weight)).sum
        / totalWeightValue angles minAngle maxAngle))

/-! ## Detection postprocessing (`detection.service.ts`)

`extractBoxesFromContours` walks the contour bounding rectangles of the
padded probability-map canvas, discards rectangles with area
`≤ minBoxArea`, pads and clamps them to the padded canvas, rescales into
original-image coordinates, and keeps only boxes strictly wider and
taller than 5 pixels. -/

/-- Source `DetectionService.applyPaddingToRect`: both paddings are derived from
the rectangle height; the expansion is clamped to `[0, maxWidth] ×
[0, maxHeight]`. -/
def applyPaddingToRect (rect : Box) (maxWidth maxHeight : Rat)
    (paddingVertical paddingHorizontal : Rat) : Box :=
  let verticalPadding := ((jsRound (rect.height * paddingVertical) : Int) : Rat)
  let horizontalPadding := ((jsRound (rect.height * paddingHorizontal) : Int) : Rat)
  let x := max 0 (rect.x - horizontalPadding)
  let y := max 0 (rect.y - verticalPadding)
  let rightEdge := min maxWidth (rect.x + rect.width + horizontalPadding)
  let bottomEdge := min maxHeight (rect.y + rect.height + verticalPadding)
  { x := x, y := y, width := rightEdge - x, height := bottomEdge - y }

/-- Source `DetectionService.convertToOriginalCoordinates`: divide by the resize
ratio, round, and clamp to the original image bounds. -/
def convertToOriginalCoordinates (rect : Box) ( resizeRatio : Rat)
    (originalWidth originalHeight : Rat) : Box :=
  let scaledX := rect.x / resizeRatio
  let scaledY := rect.y / resizeRatio
  let scaledWidth := rect.width / resizeRatio
  let scaledHeight := rect.height / resizeRatio
  let x := max 0 ((jsRound scaledX : Int) : Rat)
  let y := max 0 ((jsRound scaledY : Int) : Rat)
  { x := x, y := y,
    width := min (originalWidth - x) ((jsRound scaledWidth : Int) : Rat),
    height := min (originalHeight - y) ((jsRound scaledHeight : Int) : Rat) }

/-- Source `DetectionService.extractBoxesFromContours` over the list of contour
bounding rectangles. -/
def extractBoxesFromContours (rects : List Box) (width height : Rat)
    ( resizeRatio : Rat) (originalWidth originalHeight : Rat)
    (minBoxArea paddingVertical paddingHorizontal : Rat) : List Box :=
  rects.filterMap (fun rect =>
    if rect.width * rect.height ≤ minBoxArea then none
    else
      let paddedRect :=
        applyPaddingToRect rect width height paddingVertical paddingHorizontal
      let finalBox :=
        convertToOriginalCoordinates paddedRect resizeRatio
          originalWidth originalHeight
      if 5 < finalBox.width ∧ 5 < finalBox.height then some finalBox else none)

/-! ## Result cache (`recognition.service.ts`, `ImageCache`) and the
cache-consulting `recognize`

`ImageCache` wraps a JS `Map` used in LRU fashion: entries are kept in
insertion order (head oldest), `get` re-inserts a hit at the end, `set`
deletes an existing key (or, at capacity, the oldest key) before
appending. -/

/-- JS `Map.delete(key)`: remove the (unique) entry with the key; on a
key-nodup list, removing the first occurrence. -/
def eraseKey {α : Type} : List (String × α) → String → List (String × α)
  | [], _ => []
  | e :: rest, key => if e.1 = key then rest else e :: eraseKey rest key

/-- The `ImageCache` state: insertion-ordered entries plus capacity. -/
structure ImageCache (α : Type) where
  entries : List (String × α)
  maxSize : Nat

/-- Lookup without LRU reordering (JS `Map.get`). -/
def ImageCache.find {α : Type} (c : ImageCache α) (key : String) : Option α :=
  (c.entries.find? (fun e => e.1 = key)).map Prod.snd

/-- Source `ImageCache.get`: a hit moves the entry to the most-recently-used
position (delete + re-insert at the end) and returns the value. -/
def ImageCache.get {α : Type} (c : ImageCache α) (key : String) :
    Option α × ImageCache α :=
  match c.entries.find? (fun e => e.1 = key) with
  | some e =>
      (some e.2, { c with entries := eraseKey c.entries key ++ [(key, e.2)] })
  | none => (none, c)

/-- Source `ImageCache.set`: delete an existing key, or at capacity the oldest
key, then append the entry at the most-recently-used position. -/
def ImageCache.set {α : Type} (c : ImageCache α) (key : String) (v : α) :
    ImageCache α :=
  if (c.entries.find? (fun e => e.1 = key)).isSome then
    { c with entries := eraseKey c.entries key ++ [(key, v)] }
  else if c.maxSize ≤ c.entries.length then
    { c with entries := c.entries.tail ++ [(key, v)] }
  else
    { c with entries := c.entries ++ [(key, v)] }

/-- Per-call options of `recognize` (`RecognizeOptions` in
`interface.ts`); a supplied custom dictionary is abstracted to the flag
`hasDictionary`. -/
structure RecognizeOptions where
  flatten : Bool
  hasDictionary : Bool
  noCache : Bool

/-- Cache plus run counters for the detection and recognition stages. -/
structure OcrPipelineState (α : Type) where
  cache : ImageCache α
  detectorRuns : Nat
  recognitorRuns : Nat

/-- Modelled from the spec: the cache integration of
`PaddleOcrService.recognize` lives in `src/processor/paddle-ocr.service.ts`,
which is absent from the sources (only its tests and the
`RecognizeOptions` declaration are present).  Spec §4.7/§4.8: the cache
is bypassed entirely (no read, no write) when `noCache` is set or a
custom dictionary is supplied for the call; otherwise the image
fingerprint is looked up, a hit returns the cached result without
running detection or recognition, and a miss runs the full pipeline
(detection + recognition + assembly, abstracted as `runPipeline`) and
stores the result under the fingerprint.  The counters record how often
detection and recognition execute. -/
def recognizeWithCache {α : Type} (runPipeline : List Nat → α)
    (st : OcrPipelineState α) (imageBytes : List Nat)
    (opts : RecognizeOptions) : α × OcrPipelineState α :=
  if opts.noCache || opts.hasDictionary then
    (runPipeline imageBytes,
      { st with detectorRuns := st.detectorRuns + 1,
                recognitorRuns := st.recognitorRuns + 1 })
  else
    let key := generateKey imageBytes
    match ImageCache.get st.cache key with
    | (some v, c2) => (v, { st with cache := c2 })
    | (none, c2) =>
        let result := runPipeline imageBytes
        (result,
          { cache := ImageCache.set c2 key result,
            detectorRuns := st.detectorRuns + 1,
            recognitorRuns := st.recognitorRuns + 1 })

/-! ## Theorems -/

/-- Congruent integers are identified by `toInt32`. -/
theorem toInt32_congr {a b : Int} (h : a % 4294967296 = b % 4294967296) :
    toInt32 a = toInt32 b := by
  unfold toInt32
  omega

/-- One step of the source hash equals one step of the specification
recurrence. -/
theorem toInt32_hash_step (h : Int) (b : Nat) :
    toInt32 (toInt32 (h * 32) - h + b) = toInt32 (h * 31 + b) := by
  apply toInt32_congr
  unfold toInt32
  omega

/-- The source hash loop coincides with the specification recurrence. -/
theorem generateKeyHash_eq_spec (bs : List Nat) :
    ∀ h : Int, generateKeyHash h bs = fingerprintSpecHash h bs := by
  induction bs with
  | nil => intro h; rfl
  | cons b rest ih =>
      intro h
      rw [generateKeyHash, fingerprintSpecHash, toInt32_hash_step]
      exact ih _

/-- C10: for every image byte sequence the cache fingerprint equals
`"{hash}_{length}"` where `length` is the total byte length and `hash`
follows the recurrence `hash ← hash·31 + byte` with 32-bit wraparound
starting from 0 over the first `min(1024, length)` bytes; consequently
two buffer views exposing identical logical byte sequences fingerprint
identically regardless of backing allocation or view offset. -/
theorem generateKey_eq_fingerprintSpec :
    (∀ bytes : List Nat, generateKey bytes = fingerprintSpec bytes) ∧
    (∀ b1 b2 : ByteBuffer, b1.logicalBytes = b2.logicalBytes →
      generateKey b1.logicalBytes = generateKey b2.logicalBytes) := by
  constructor
  · intro bytes
    simp only [generateKey, fingerprintSpec, generateKeyHash_eq_spec, Nat.min_comm]
  · intro b1 b2 h
    rw [h]

/-- Witness for C10 at concrete inputs: a three-byte image, and two views
with different backings and offsets exposing the same bytes. -/
theorem generateKey_eq_fingerprintSpec_witness :
    generateKey [1, 2, 3] = fingerprintSpec [1, 2, 3] ∧
    generateKey (ByteBuffer.mk [9, 1, 2, 3, 9] 1 3).logicalBytes
      = generateKey (ByteBuffer.mk [1, 2, 3] 0 3).logicalBytes :=
  ⟨generateKey_eq_fingerprintSpec.1 [1, 2, 3],
   generateKey_eq_fingerprintSpec.2 _ _ (by decide)⟩

/-- C5 (code bug evaluation): a dictionary source whose decoded text is
empty is accepted, not rejected.  `"".split("\n")` yields `[""]`, whose
length is 1, so the `length === 0` guard in `initialize`,
`changeTextDictionary` and the `recognize` override never fires and the
call proceeds with the degenerate one-entry dictionary `[""]`. -/
theorem loadCharactersDictionary_empty_accepted :
    loadCharactersDictionary "" = Except.ok [""] := by
  rfl

/-- C1 counterexample: with both sessions null (Uninitialized — also the
state left behind by `destroy`), `changeDetectionModel` succeeds and
installs the new session instead of failing with the not-initialized
error, and `destroy` succeeds as well; so not every public operation
other than `initialize` fails while Uninitialized. -/
theorem changeDetectionModel_uninitialized_counterexample :
    isInitialized ⟨none, none⟩ = false ∧
    changeDetectionModel ⟨none, none⟩ 7 = Except.ok ⟨some 7, none⟩ ∧
    destroy ⟨none, none⟩ = Except.ok ⟨none, none⟩ :=
  ⟨rfl, rfl, rfl⟩

/-- C1 (amended): `recognize` and `deskewImage`, called while the service
is not initialized (detection or recognition session absent, including
after `destroy`), fail immediately with the dedicated not-initialized
error and perform no other work; `changeDetectionModel`,
`changeRecognitionModel`, `changeTextDictionary` and `destroy` perform no
initialization check and never fail with the not-initialized error. -/
theorem notInitialized_guard_exactness :
    (∀ (s : PaddleOcrState) (α : Type) (work : α), isInitialized s = false →
      recognizeGuard s work = Except.error notInitializedMessage ∧
      deskewImageGuard s work = Except.error notInitializedMessage) ∧
    (∀ (s : PaddleOcrState) (m : Nat) (e : String),
      changeDetectionModel s m ≠ Except.error e) ∧
    (∀ (s : PaddleOcrState) (m : Nat) (e : String),
      changeRecognitionModel s m ≠ Except.error e) ∧
    (∀ (s : PaddleOcrState) (d : String),
      changeTextDictionary s d ≠ Except.error notInitializedMessage) ∧
    (∀ s : PaddleOcrState, destroy s = Except.ok ⟨none, none⟩) := by
  refine ⟨?_, ?_, ?_, ?_, ?_⟩
  · intro s α work h
    constructor <;> simp [recognizeGuard, deskewImageGuard, h]
  · intro s m e
    simp [changeDetectionModel]
  · intro s m e
    simp [changeRecognitionModel]
  · intro s d
    unfold changeTextDictionary loadCharactersDictionary
    by_cases hl : (splitNewline d).length = 0 <;> simp [hl]
    decide
  · intro s
    rfl

/-- Witness for the amended C1 at the concrete uninitialized state. -/
theorem notInitialized_guard_exactness_witness :
    recognizeGuard (PaddleOcrState.mk none none) (0 : Nat)
      = Except.error notInitializedMessage ∧
    deskewImageGuard (PaddleOcrState.mk none none) (0 : Nat)
      = Except.error notInitializedMessage ∧
    changeTextDictionary (PaddleOcrState.mk none none) "a\nb"
      ≠ Except.error notInitializedMessage :=
  ⟨(notInitialized_guard_exactness.1 ⟨none, none⟩ Nat 0 rfl).1,
   (notInitialized_guard_exactness.1 ⟨none, none⟩ Nat 0 rfl).2,
   notInitialized_guard_exactness.2.2.2.1 ⟨none, none⟩ "a\nb"⟩

/-- The lines produced by the grouping sweep flatten back to the closed
lines, the open line and the unprocessed rest, in order. -/
theorem groupLoop_flatten (rest : List RecognitionResult) :
    ∀ previous lines currentLine fullText avgHeight,
      (groupLoop rest previous lines currentLine fullText avgHeight).2.flatten
        = lines.flatten ++ currentLine ++ rest := by
  induction rest with
  | nil =>
      intro p lines cl t a
      simp only [groupLoop]
      split
      · simp
      · next h =>
          have hcl : cl = [] := List.eq_nil_of_length_eq_zero (by omega)
          simp [hcl]
  | cons current rest ih =>
      intro p lines cl t a
      simp only [groupLoop]
      split
      · rw [ih]
        simp
      · rw [ih]
        simp

/-- C3: the grouped and flattened shapes of `recognize` carry the same
underlying data: the flattened results list has exactly as many items as
the grouped lines-of-lines flattened, and text and overall confidence
are identical between the two shapes for the same input. -/
theorem grouped_flattened_agree (recognition : List RecognitionResult) :
    (recognizeFlattened recognition).results.length
      = (recognizeGrouped recognition).lines.flatten.length ∧
    (recognizeFlattened recognition).text = (recognizeGrouped recognition).text ∧
    (recognizeFlattened recognition).confidence
      = (recognizeGrouped recognition).confidence := by
  refine ⟨?_, rfl, rfl⟩
  cases recognition with
  | nil => rfl
  | cons first rest =>
      simp [recognizeFlattened, recognizeGrouped, processRecognition,
        groupLoop_flatten]

/-- Folding the append rule from any accumulator prefixes the
accumulator to the emission. -/
theorem emitFold_acc (charDict : List String) (cs : List Nat) :
    ∀ acc : String,
      cs.foldl (fun a i => a ++ (appendCharacterToText i charDict).getD "") acc
        = acc ++ emitText charDict cs := by
  induction cs with
  | nil => intro acc; simp [emitText]
  | cons c cs ih =>
      intro acc
      simp only [emitText, List.foldl]
      rw [ih, ih]
      simp [String.append_assoc]

/-- Emission of a cons: the head's appended fragment followed by the
emission of the tail. -/
theorem emitText_cons (charDict : List String) (c : Nat) (cs : List Nat) :
    emitText charDict (c :: cs)
      = (appendCharacterToText c charDict).getD "" ++ emitText charDict cs := by
  simp only [emitText, List.foldl]
  rw [emitFold_acc]
  simp [emitText]

/-- Decoded text of the CTC loop: the accumulated text followed by the
emission of the argmax class sequence with consecutive duplicates
(relative to the running previous class) collapsed and blanks removed. -/
theorem ctcLoop_text_eq (charDict : List String) (rows : List (List Rat)) :
    ∀ (last : Int) (decodedText : String) (charConfidences : List Rat),
      (∀ row ∈ rows, (findMaxProbabilityClass row).2 < charDict.length) →
      (ctcLoop charDict rows last decodedText charConfidences).1
        = decodedText ++ emitText charDict
            ((collapseRepeatsAux last
                (rows.map fun r => (findMaxProbabilityClass r).2)).filter
              (fun c => c ≠ 0)) := by
  induction rows with
  | nil =>
      intro last t confs _
      simp [ctcLoop, collapseRepeatsAux, emitText]
  | cons row rest ih =>
      intro last t confs hv
      have hrow : (findMaxProbabilityClass row).2 < charDict.length :=
        hv row (List.mem_cons_self _ _)
      have hrest : ∀ r ∈ rest, (findMaxProbabilityClass r).2 < charDict.length :=
        fun r hr => hv r (List.mem_cons_of_mem _ hr)
      simp only [ctcLoop, List.map_cons, collapseRepeatsAux]
      by_cases hdup : ((findMaxProbabilityClass row).2 : Int) = last
      · rw [if_pos (Or.inr hdup), if_pos hdup, ← hdup, ih _ _ _ hrest]
      · rw [if_neg hdup]
        by_cases hz : (findMaxProbabilityClass row).2 = 0
        · rw [if_pos (Or.inl hz), ih _ _ _ hrest]
          simp [hz]
        · rw [if_neg (by simp [hz, hdup]), if_pos hrow]
          cases happ : appendCharacterToText (findMaxProbabilityClass row).2 charDict with
          | some ch =>
              dsimp only
              rw [ih _ _ _ hrest, List.filter_cons_of_pos (by simp [hz]),
                emitText_cons, happ]
              simp [String.append_assoc]
          | none =>
              dsimp only
              rw [ih _ _ _ hrest, List.filter_cons_of_pos (by simp [hz]),
                emitText_cons, happ]
              simp

/-- C4 (amended): during greedy CTC decoding a timestep is skipped
exactly when its argmax class is the blank class 0 or equals the
immediately preceding timestep's argmax class (remembered whether or not
that class was emitted): for rows whose argmax classes lie inside the
dictionary, the decoded text is the emission of the argmax sequence with
consecutive raw duplicates collapsed and blanks removed; in particular,
for an argmax sequence `[c, blank, c]` with `c` a valid non-blank,
non-sentinel dictionary index, `dictionary[c]` is emitted twice. -/
theorem ctcGreedyDecode_skip_rule :
    (∀ (charDict : List String) (rows : List (List Rat)),
      (∀ row ∈ rows, (findMaxProbabilityClass row).2 < charDict.length) →
      (ctcGreedyDecode rows charDict).1
        = emitText charDict
            ((collapseRepeats
                (rows.map fun r => (findMaxProbabilityClass r).2)).filter
              (fun c => c ≠ 0))) ∧
    (∀ (charDict : List String) (c : Nat) (r0 r1 r2 : List Rat),
      0 < c → c + 1 < charDict.length →
      (findMaxProbabilityClass r0).2 = c →
      (findMaxProbabilityClass r1).2 = 0 →
      (findMaxProbabilityClass r2).2 = c →
      (ctcGreedyDecode [r0, r1, r2] charDict).1
        = charDict.getD c "" ++ charDict.getD c "") := by
  have main : ∀ (charDict : List String) (rows : List (List Rat)),
      (∀ row ∈ rows, (findMaxProbabilityClass row).2 < charDict.length) →
      (ctcGreedyDecode rows charDict).1
        = emitText charDict
            ((collapseRepeats
                (rows.map fun r => (findMaxProbabilityClass r).2)).filter
              (fun c => c ≠ 0)) := by
    intro charDict rows hv
    have := ctcLoop_text_eq charDict rows (-1) "" [] hv
    simpa [ctcGreedyDecode, collapseRepeats] using this
  refine ⟨main, ?_⟩
  intro charDict c r0 r1 r2 hc hlen h0 h1 h2
  have hv : ∀ row ∈ [r0, r1, r2],
      (findMaxProbabilityClass row).2 < charDict.length := by
    intro row hr
    simp only [List.mem_cons, List.not_mem_nil, or_false] at hr
    rcases hr with h | h | h
    · rw [h, h0]; omega
    · rw [h, h1]; omega
    · rw [h, h2]; omega
  rw [main charDict [r0, r1, r2] hv]
  have hcollapse :
      (collapseRepeats
          ([r0, r1, r2].map fun r => (findMaxProbabilityClass r).2)).filter
        (fun c => c ≠ 0) = [c, c] := by
    simp only [List.map_cons, List.map_nil, h0, h1, h2, collapseRepeats,
      collapseRepeatsAux]
    rw [if_neg (by omega), if_neg (by omega), if_neg (by omega)]
    simp [List.filter, hc.ne']
  rw [hcollapse, emitText_cons, emitText_cons]
  have happ : appendCharacterToText c charDict = some (charDict.getD c "") := by
    unfold appendCharacterToText
    rw [if_neg (by omega)]
  rw [happ]
  simp [emitText]

/-- C4 counterexample: with dictionary `["#", "a", "$"]` (class 1 a valid
non-blank, non-sentinel index) and logits whose argmax sequence is
`[1, blank, 1]`, the decoder emits `"aa"` — two copies of
`dictionary[1]`, not one: a class equal to the previous *kept* class is
still emitted when a blank intervenes, because the remembered previous
class is the raw previous timestep's class. -/
theorem ctcGreedyDecode_blank_separated_counterexample :
    (ctcGreedyDecode [[(0 : Rat), 1, 0], [1, 0, 0], [0, 1, 0]]
        ["#", "a", "$"]).1 = "aa" ∧
    ("aa" : String) ≠ "a" :=
  ⟨by decide, by decide⟩

/-- Witness for the amended C4 at concrete logits and dictionary. -/
theorem ctcGreedyDecode_skip_rule_witness :
    (ctcGreedyDecode [[(0 : Rat), 1, 0], [1, 0, 0], [0, 1, 0]]
        ["#", "a", "$"]).1
      = (["#", "a", "$"].getD 1 "") ++ (["#", "a", "$"].getD 1 "") :=
  ctcGreedyDecode_skip_rule.2 ["#", "a", "$"] 1
    [(0 : Rat), 1, 0] [1, 0, 0] [0, 1, 0]
    (by decide) (by decide) (by decide) (by decide) (by decide)

/-- C6: within one recognition run, the returned results are exactly the
successful boxes' results in order, a failing box (such as one whose
crop has a zero dimension, which `preprocessImage` rejects) contributes
nothing, and its failure neither aborts nor alters the processing of the
sibling boxes. -/
theorem processBoxes_failure_isolation :
    (∀ (recognizeTextFn : Box → Except String (String × Rat)) (boxes : List Box),
      processBoxesInParallel recognizeTextFn boxes
        = boxes.filterMap (fun b => (recognizeTextFn b).toOption.map
            (fun p => { text := p.1, box := b, confidence := p.2 }))) ∧
    (∀ (recognizeTextFn : Box → Except String (String × Rat))
        (l1 l2 : List Box) (b : Box) (e : String),
      recognizeTextFn b = Except.error e →
      processBoxesInParallel recognizeTextFn (l1 ++ b :: l2)
        = processBoxesInParallel recognizeTextFn l1
            ++ processBoxesInParallel recognizeTextFn l2) ∧
    (∀ ow oh target : Rat, oh = 0 ∨ ow = 0 →
      ∃ e, preprocessImageSize ow oh target = Except.error e) := by
  have main : ∀ (recognizeTextFn : Box → Except String (String × Rat))
      (boxes : List Box),
      processBoxesInParallel recognizeTextFn boxes
        = boxes.filterMap (fun b => (recognizeTextFn b).toOption.map
            (fun p => { text := p.1, box := b, confidence := p.2 })) := by
    intro f boxes
    induction boxes with
    | nil => rfl
    | cons b rest ih =>
        simp only [processBoxesInParallel, List.map_cons, List.filterMap_cons] at *
        cases hfb : f b <;>
          simp [processBox, hfb, Except.toOption, ih]
  refine ⟨main, ?_, ?_⟩
  · intro f l1 l2 b e hfb
    rw [main, main, main, List.filterMap_append, List.filterMap_cons]
    simp [hfb, Except.toOption]
  · intro ow oh target hz
    exact ⟨_, by rw [preprocessImageSize, if_pos hz]⟩

/-- Witness for C6: three boxes where the middle box's recognition fails
(zero-width crop); the results are those of the two sibling boxes. -/
theorem processBoxes_failure_isolation_witness :
    processBoxesInParallel
        (fun b => if b.width = 0
          then Except.error "Crop dimensions are zero: 0x3"
          else Except.ok ("t", 1))
        ([⟨0, 0, 3, 3⟩] ++ ⟨0, 0, 0, 3⟩ :: [⟨0, 9, 3, 3⟩])
      = processBoxesInParallel
          (fun b => if b.width = 0
            then Except.error "Crop dimensions are zero: 0x3"
            else Except.ok ("t", 1)) [⟨0, 0, 3, 3⟩]
        ++ processBoxesInParallel
            (fun b => if b.width = 0
              then Except.error "Crop dimensions are zero: 0x3"
              else Except.ok ("t", 1)) [⟨0, 9, 3, 3⟩] :=
  processBoxes_failure_isolation.2.1 _ [⟨0, 0, 3, 3⟩] [⟨0, 9, 3, 3⟩]
    ⟨0, 0, 0, 3⟩ "Crop dimensions are zero: 0x3" rfl

/-- C8 counterexample: a contour rectangle that passes the area check
and maps to a final box exactly 5 px wide and 5 px tall (at least 5 px
in both dimensions) is discarded — the source keeps only boxes strictly
wider and taller than 5 px (`> 5`), so a 5 px box does not appear in the
output, contradicting the claim that every box at least 5 px wide and
tall appears. -/
theorem extractBoxes_five_px_counterexample :
    extractBoxesFromContours [⟨0, 0, 5, 5⟩] 100 100 1 100 100 20 0 0 = [] ∧
    convertToOriginalCoordinates
        (applyPaddingToRect ⟨0, 0, 5, 5⟩ 100 100 0 0) 1 100 100
      = ⟨0, 0, 5, 5⟩ :=
  ⟨by norm_num [extractBoxesFromContours, applyPaddingToRect,
      convertToOriginalCoordinates, jsRound],
   by norm_num [applyPaddingToRect, convertToOriginalCoordinates, jsRound]⟩

/-- C8 (amended): a rescaled, padded, clamped box appears in the output
exactly when its parent contour rectangle survives the area check and
the box is strictly wider than 5 px and strictly taller than 5 px;
equivalently, a resulting box is discarded exactly when its width or
height is at most 5 px. -/
theorem extractBoxes_membership (rects : List Box) (width height : Rat)
    ( resizeRatio : Rat) (originalWidth originalHeight : Rat)
    (minBoxArea paddingVertical paddingHorizontal : Rat) (b : Box) :
    b ∈ extractBoxesFromContours rects width height resizeRatio
        originalWidth originalHeight minBoxArea paddingVertical
        paddingHorizontal
      ↔ ∃ rect ∈ rects, minBoxArea < rect.width * rect.height ∧
          b = convertToOriginalCoordinates
                (applyPaddingToRect rect width height paddingVertical
                  paddingHorizontal) resizeRatio originalWidth originalHeight ∧
          5 < b.width ∧ 5 < b.height := by
  rw [extractBoxesFromContours, List.mem_filterMap]
  constructor
  · rintro ⟨rect, hmem, hf⟩
    by_cases h1 : rect.width * rect.height ≤ minBoxArea
    · rw [if_pos h1] at hf
      cases hf
    · rw [if_neg h1] at hf
      dsimp only at hf
      by_cases h2 : 5 < (convertToOriginalCoordinates
          (applyPaddingToRect rect width height paddingVertical
            paddingHorizontal) resizeRatio originalWidth originalHeight).width ∧
          5 < (convertToOriginalCoordinates
          (applyPaddingToRect rect width height paddingVertical
            paddingHorizontal) resizeRatio originalWidth originalHeight).height
      · rw [if_pos h2] at hf
        have hb := (Option.some.inj hf).symm
        exact ⟨rect, hmem, lt_of_not_le h1, hb, hb ▸ h2.1, hb ▸ h2.2⟩
      · rw [if_neg h2] at hf
        cases hf
  · rintro ⟨rect, hmem, harea, hb, hw5, hh5⟩
    refine ⟨rect, hmem, ?_⟩
    rw [if_neg (not_le.mpr harea)]
    dsimp only
    rw [if_pos (by rw [← hb]; exact ⟨hw5, hh5⟩), ← hb]

/-- Witness for the amended C8: a 6×6 contour rectangle (area 36 above
the threshold 20, no padding, unit resize ratio) yields the 6×6 box,
which is strictly wider and taller than 5 px and appears in the output. -/
theorem extractBoxes_membership_witness :
    (⟨0, 0, 6, 6⟩ : Box)
      ∈ extractBoxesFromContours [⟨0, 0, 6, 6⟩] 100 100 1 100 100 20 0 0 := by
  rw [extractBoxes_membership]
  refine ⟨⟨0, 0, 6, 6⟩, ?_, ?_, ?_, ?_, ?_⟩
  · simp
  · norm_num
  · norm_num [applyPaddingToRect, convertToOriginalCoordinates, jsRound]
  · norm_num
  · norm_num

/-- The rounded value of a nonnegative rational is nonnegative. -/
theorem jsRound_nonneg {q : Rat} (h : 0 ≤ q) : (0 : Int) ≤ jsRound q := by
  rw [jsRound]
  exact Int.le_floor.mpr (by push_cast; linarith)

/-- C9: for every contour rectangle lying inside the padded canvas and
nonnegative padding fractions, the padding applied before rescaling is
`vertical = round(height × paddingVertical)` and `horizontal =
round(height × paddingHorizontal)` — both derived from the rectangle's
height — and the expanded rectangle is clamped to lie entirely within
`[0, maxWidth] × [0, maxHeight]` (the padded canvas) before coordinate
rescaling. -/
theorem applyPaddingToRect_spec (rect : Box)
    (maxWidth maxHeight paddingVertical paddingHorizontal : Rat)
    (hx : 0 ≤ rect.x) (hy : 0 ≤ rect.y)
    (hxw : rect.x + rect.width ≤ maxWidth)
    (hyh : rect.y + rect.height ≤ maxHeight)
    (hw : 0 ≤ rect.width) (hh : 0 ≤ rect.height)
    (hpv : 0 ≤ paddingVertical) (hph : 0 ≤ paddingHorizontal) :
    (applyPaddingToRect rect maxWidth maxHeight paddingVertical
        paddingHorizontal).x
      = max 0 (rect.x - ((jsRound (rect.height * paddingHorizontal) : Int) : Rat)) ∧
    (applyPaddingToRect rect maxWidth maxHeight paddingVertical
        paddingHorizontal).y
      = max 0 (rect.y - ((jsRound (rect.height * paddingVertical) : Int) : Rat)) ∧
    (applyPaddingToRect rect maxWidth maxHeight paddingVertical
          paddingHorizontal).x
        + (applyPaddingToRect rect maxWidth maxHeight paddingVertical
          paddingHorizontal).width
      = min maxWidth (rect.x + rect.width
          + ((jsRound (rect.height * paddingHorizontal) : Int) : Rat)) ∧
    (applyPaddingToRect rect maxWidth maxHeight paddingVertical
          paddingHorizontal).y
        + (applyPaddingToRect rect maxWidth maxHeight paddingVertical
          paddingHorizontal).height
      = min maxHeight (rect.y + rect.height
          + ((jsRound (rect.height * paddingVertical) : Int) : Rat)) ∧
    0 ≤ (applyPaddingToRect rect maxWidth maxHeight paddingVertical
        paddingHorizontal).x ∧
    0 ≤ (applyPaddingToRect rect maxWidth maxHeight paddingVertical
        paddingHorizontal).y ∧
    0 ≤ (applyPaddingToRect rect maxWidth maxHeight paddingVertical
        paddingHorizontal).width ∧
    0 ≤ (applyPaddingToRect rect maxWidth maxHeight paddingVertical
        paddingHorizontal).height ∧
    (applyPaddingToRect rect maxWidth maxHeight paddingVertical
          paddingHorizontal).x
        + (applyPaddingToRect rect maxWidth maxHeight paddingVertical
          paddingHorizontal).width ≤ maxWidth ∧
    (applyPaddingToRect rect maxWidth maxHeight paddingVertical
          paddingHorizontal).y
        + (applyPaddingToRect rect maxWidth maxHeight paddingVertical
          paddingHorizontal).height ≤ maxHeight := by
  have hhp : (0 : Rat) ≤ ((jsRound (rect.height * paddingHorizontal) : Int) : Rat) := by
    exact_mod_cast jsRound_nonneg (mul_nonneg hh hph)
  have hvp : (0 : Rat) ≤ ((jsRound (rect.height * paddingVertical) : Int) : Rat) := by
    exact_mod_cast jsRound_nonneg (mul_nonneg hh hpv)
  refine ⟨rfl, rfl, ?_, ?_, ?_, ?_, ?_, ?_, ?_, ?_⟩
  · simp only [applyPaddingToRect]
    ring
  · simp only [applyPaddingToRect]
    ring
  · simp only [applyPaddingToRect]
    exact le_max_left _ _
  · simp only [applyPaddingToRect]
    exact le_max_left _ _
  · simp only [applyPaddingToRect]
    rw [sub_nonneg]
    refine le_min (max_le (by linarith) (by linarith))
      (max_le (by linarith) (by linarith))
  · simp only [applyPaddingToRect]
    rw [sub_nonneg]
    refine le_min (max_le (by linarith) (by linarith))
      (max_le (by linarith) (by linarith))
  · simp only [applyPaddingToRect]
    have h1 : max 0 (rect.x - ((jsRound (rect.height * paddingHorizontal) : Int) : Rat))
        + (min maxWidth (rect.x + rect.width
            + ((jsRound (rect.height * paddingHorizontal) : Int) : Rat))
          - max 0 (rect.x - ((jsRound (rect.height * paddingHorizontal) : Int) : Rat)))
        = min maxWidth (rect.x + rect.width
            + ((jsRound (rect.height * paddingHorizontal) : Int) : Rat)) := by ring
    rw [h1]
    exact min_le_left _ _
  · simp only [applyPaddingToRect]
    have h1 : max 0 (rect.y - ((jsRound (rect.height * paddingVertical) : Int) : Rat))
        + (min maxHeight (rect.y + rect.height
            + ((jsRound (rect.height * paddingVertical) : Int) : Rat))
          - max 0 (rect.y - ((jsRound (rect.height * paddingVertical) : Int) : Rat)))
        = min maxHeight (rect.y + rect.height
            + ((jsRound (rect.height * paddingVertical) : Int) : Rat)) := by ring
    rw [h1]
    exact min_le_left _ _

/-- Witness for C9 at a concrete rectangle and the default padding
fractions 0.4 and 0.6. -/
theorem applyPaddingToRect_spec_witness :
    0 ≤ (applyPaddingToRect ⟨1, 1, 3, 2⟩ 100 50 (2/5) (3/5)).x ∧
    (applyPaddingToRect ⟨1, 1, 3, 2⟩ 100 50 (2/5) (3/5)).x
        + (applyPaddingToRect ⟨1, 1, 3, 2⟩ 100 50 (2/5) (3/5)).width ≤ 100 :=
  ⟨(applyPaddingToRect_spec ⟨1, 1, 3, 2⟩ 100 50 (2/5) (3/5) (by norm_num)
      (by norm_num) (by norm_num) (by norm_num) (by norm_num) (by norm_num)
      (by norm_num) (by norm_num)).2.2.2.2.1,
   (applyPaddingToRect_spec ⟨1, 1, 3, 2⟩ 100 50 (2/5) (3/5) (by norm_num)
      (by norm_num) (by norm_num) (by norm_num) (by norm_num) (by norm_num)
      (by norm_num) (by norm_num)).2.2.2.2.2.2.2.2.1⟩

/-- Sum of angles of a list of measurements within `[lo, hi]` is within
`[lo·n, hi·n]`. -/
theorem sum_angle_bounds (lo hi : Rat) (l : List AngleMeasurement)
    (h : ∀ a ∈ l, lo ≤ a.angle ∧ a.angle ≤ hi) :
    lo * l.length ≤ (l.map AngleMeasurement.angle).sum ∧
    (l.map AngleMeasurement.angle).sum ≤ hi * l.length := by
  induction l with
  | nil => simp
  | cons a rest ih =>
      have ha := h a (List.mem_cons_self _ _)
      have hr := ih (fun b hb => h b (List.mem_cons_of_mem _ hb))
      simp only [List.map_cons, List.sum_cons, List.length_cons]
      push_cast
      constructor <;> nlinarith [hr.1, hr.2, ha.1, ha.2]

/-- Weighted sum of angles within `[lo, hi]` with nonnegative weights is
within `[lo·Σw, hi·Σw]`. -/
theorem weighted_sum_bounds (lo hi : Rat) (l : List AngleMeasurement)
    (h : ∀ a ∈ l, (lo ≤ a.angle ∧ a.angle ≤ hi) ∧ 0 ≤ a.weight) :
    lo * (l.map AngleMeasurement.weight).sum
      ≤ (l.map (fun a => a.angle * a.weight)).sum ∧
    (l.map (fun a => a.angle * a.weight)).sum
      ≤ hi * (l.map AngleMeasurement.weight).sum := by
  induction l with
  | nil => simp
  | cons a rest ih =>
      obtain ⟨⟨h1, h2⟩, h3⟩ := h a (List.mem_cons_self _ _)
      have hr := ih (fun b hb => h b (List.mem_cons_of_mem _ hb))
      simp only [List.map_cons, List.sum_cons]
      constructor
      · nlinarith [hr.1, mul_le_mul_of_nonneg_right h1 h3]
      · nlinarith [hr.2, mul_le_mul_of_nonneg_right h2 h3]

/-- Membership in the kept set implies membership in the pool and the
`[minAngle, maxAngle]` bound. -/
theorem mem_filteredAngles {angles : List AngleMeasurement}
    {minA maxA : Rat} {a : AngleMeasurement}
    (h : a ∈ filteredAngles angles minA maxA) :
    a ∈ angles ∧ minA ≤ a.angle ∧ a.angle ≤ maxA := by
  rw [filteredAngles, List.mem_filter] at h
  have h2 := of_decide_eq_true h.2
  exact ⟨h.1, h2.2.2.1, h2.2.2.2⟩

/-- C7: for a non-empty pool with nonnegative weights (all three
estimation methods produce nonnegative weights), the consensus keeps the
measurements inside `[Q1 − 1.5·IQR, Q3 + 1.5·IQR] ∩ [−20°, 20°]` (with
Q1 and Q3 read at indices `⌊0.25·n⌋` and `⌊0.75·n⌋` of the angle-sorted
pool — see `q1Value`, `q3Value`, `filteredAngles`); when nothing
survives it returns the median of the unfiltered sorted pool, otherwise
it returns the weight-weighted average of the kept angles (the
arithmetic mean when the total weight is zero) and that value always
lies within `[−20°, 20°]`. -/
theorem calculateConsensusAngle_spec (angles : List AngleMeasurement)
    (hne : angles ≠ []) (hw : ∀ a ∈ angles, 0 ≤ a.weight) :
    (filteredAngles angles (-20) 20 = [] →
      calculateConsensusAngle angles (-20) 20 = medianValue angles) ∧
    (filteredAngles angles (-20) 20 ≠ [] →
      (totalWeightValue angles (-20) 20 = 0 →
        calculateConsensusAngle angles (-20) 20
          = ((filteredAngles angles (-20) 20).map AngleMeasurement.angle).sum
              / ((filteredAngles angles (-20) 20).length : Rat)) ∧
      (totalWeightValue angles (-20) 20 ≠ 0 →
        calculateConsensusAngle angles (-20) 20
          = ((filteredAngles angles (-20) 20).map
                (fun a => a.angle * a.weight)).sum
              / totalWeightValue angles (-20) 20) ∧
      -20 ≤ calculateConsensusAngle angles (-20) 20 ∧
      calculateConsensusAngle angles (-20) 20 ≤ 20) := by
  have hlen : ¬ angles.length = 0 := by
    simpa [List.length_eq_zero] using hne
  constructor
  · intro hk
    rw [calculateConsensusAngle, if_neg hlen, if_pos (by rw [hk]; rfl)]
  · intro hk
    have hklen : ¬ (filteredAngles angles (-20) 20).length = 0 := by
      simpa [List.length_eq_zero] using hk
    have hmem : ∀ a ∈ filteredAngles angles (-20) 20,
        ((-20 : Rat) ≤ a.angle ∧ a.angle ≤ 20) ∧ 0 ≤ a.weight := by
      intro a ha
      have h1 := mem_filteredAngles ha
      exact ⟨⟨h1.2.1, h1.2.2⟩, hw a h1.1⟩
    have hwsum := weighted_sum_bounds (-20) 20 _ hmem
    have hasum := sum_angle_bounds (-20) 20 (filteredAngles angles (-20) 20)
      (fun a ha => (hmem a ha).1)
    have hwnn : 0 ≤ totalWeightValue angles (-20) 20 := by
      apply List.sum_nonneg
      intro x hx
      obtain ⟨a, ha, rfl⟩ := List.mem_map.mp hx
      exact (hmem a ha).2
    by_cases h0 : totalWeightValue angles (-20) 20 = 0
    · have hres : calculateConsensusAngle angles (-20) 20
          = ((filteredAngles angles (-20) 20).map AngleMeasurement.angle).sum
              / ((filteredAngles angles (-20) 20).length : Rat) := by
        rw [calculateConsensusAngle, if_neg hlen, if_neg hklen, if_pos h0]
      have hlp : (0 : Rat) < ((filteredAngles angles (-20) 20).length : Rat) := by
        exact_mod_cast Nat.pos_of_ne_zero hklen
      refine ⟨fun _ => hres, fun hcon => absurd h0 hcon, ?_, ?_⟩
      · rw [hres, le_div_iff₀ hlp]
        linarith [hasum.1]
      · rw [hres, div_le_iff₀ hlp]
        linarith [hasum.2]
    · have hpos : 0 < totalWeightValue angles (-20) 20 :=
        lt_of_le_of_ne hwnn (Ne.symm h0)
      have htw : totalWeightValue angles (-20) 20
          = ((filteredAngles angles (-20) 20).map
              AngleMeasurement.weight).sum := rfl
      have hb1 : (-20 : Rat)
          ≤ ((filteredAngles angles (-20) 20).map
              (fun a => a.angle * a.weight)).sum
            / totalWeightValue angles (-20) 20 := by
        rw [le_div_iff₀ hpos, htw]
        linarith [hwsum.1]
      have hb2 : ((filteredAngles angles (-20) 20).map
              (fun a => a.angle * a.weight)).sum
            / totalWeightValue angles (-20) 20 ≤ 20 := by
        rw [div_le_iff₀ hpos, htw]
        linarith [hwsum.2]
      have hres : calculateConsensusAngle angles (-20) 20
          = ((filteredAngles angles (-20) 20).map
                (fun a => a.angle * a.weight)).sum
              / totalWeightValue angles (-20) 20 := by
        rw [calculateConsensusAngle, if_neg hlen, if_neg hklen, if_neg h0,
          min_eq_right hb2, max_eq_right hb1]
      refine ⟨fun hcon => absurd hcon h0, fun _ => hres, ?_, ?_⟩
      · rw [hres]; exact hb1
      · rw [hres]; exact hb2

/-- Witness for C7 at the one-measurement pool `(10°, weight 1, hough)`:
the measurement survives its own IQR fence, the total weight is nonzero,
and the consensus is the weighted average, inside `[−20°, 20°]`. -/
theorem calculateConsensusAngle_spec_witness :
    filteredAngles [⟨10, 1, "hough"⟩] (-20) 20 ≠ [] ∧
    (totalWeightValue [⟨10, 1, "hough"⟩] (-20) 20 ≠ 0 →
      calculateConsensusAngle [⟨10, 1, "hough"⟩] (-20) 20
        = ((filteredAngles [⟨10, 1, "hough"⟩] (-20) 20).map
              (fun a => a.angle * a.weight)).sum
            / totalWeightValue [⟨10, 1, "hough"⟩] (-20) 20) ∧
    -20 ≤ calculateConsensusAngle [⟨10, 1, "hough"⟩] (-20) 20 ∧
    calculateConsensusAngle [⟨10, 1, "hough"⟩] (-20) 20 ≤ 20 := by
  have hfa : filteredAngles [(⟨10, 1, "hough"⟩ : AngleMeasurement)] (-20) 20
      = [⟨10, 1, "hough"⟩] := by
    simp only [filteredAngles, q1Value, q3Value, sortByAngle, insertByAngle,
      List.foldr]
    norm_num
  have hne2 : filteredAngles [(⟨10, 1, "hough"⟩ : AngleMeasurement)] (-20) 20
      ≠ [] := by
    rw [hfa]
    simp
  have h := (calculateConsensusAngle_spec [⟨10, 1, "hough"⟩] (by simp)
    (by intro a ha
        rw [List.mem_singleton] at ha
        subst ha
        norm_num)).2 hne2
  exact ⟨hne2, h.2.1, h.2.2.1, h.2.2.2⟩

/-- Appending an entry behind a list that does not contain its key makes
it the entry found for that key. -/
theorem find?_append_key_absent {α : Type} (l : List (String × α))
    (key : String) (v : α) (h : key ∉ l.map Prod.fst) :
    (l ++ [(key, v)]).find? (fun e => e.1 = key) = some (key, v) := by
  induction l with
  | nil => simp [List.find?]
  | cons e rest ih =>
      simp only [List.map_cons, List.mem_cons, not_or] at h
      simp only [List.cons_append]
      rw [List.find?_cons_of_neg _
        (by simp only [decide_eq_true_eq]; exact fun hq => h.1 hq.symm)]
      exact ih h.2

/-- After deleting a key from a key-nodup list and appending a fresh
entry for it, lookup finds the fresh entry. -/
theorem find?_eraseKey_append {α : Type} (l : List (String × α))
    (key : String) (v : α) (h : (l.map Prod.fst).Nodup) :
    (eraseKey l key ++ [(key, v)]).find? (fun e => e.1 = key)
      = some (key, v) := by
  induction l with
  | nil => simp [eraseKey, List.find?]
  | cons e rest ih =>
      simp only [List.map_cons, List.nodup_cons] at h
      by_cases he : e.1 = key
      · rw [eraseKey, if_pos he]
        exact find?_append_key_absent _ _ _ (he ▸ h.1)
      · rw [eraseKey, if_neg he]
        simp only [List.cons_append]
        rw [List.find?_cons_of_neg _
          (by simp only [decide_eq_true_eq]; exact he)]
        exact ih h.2

/-- A failed lookup means the key occurs nowhere in the entry list. -/
theorem find?_none_key_absent {α : Type} {l : List (String × α)}
    {key : String} (h : l.find? (fun e => e.1 = key) = none) :
    key ∉ l.map Prod.fst := by
  intro hmem
  obtain ⟨e, he, hfst⟩ := List.mem_map.mp hmem
  have := List.find?_eq_none.mp h e he
  simp [hfst] at this

/-- After `set key v`, lookup of `key` finds the entry `(key, v)`. -/
theorem find?_set_self {α : Type} (c : ImageCache α) (key : String) (v : α)
    (h : (c.entries.map Prod.fst).Nodup) :
    (ImageCache.set c key v).entries.find? (fun e => e.1 = key)
      = some (key, v) := by
  rw [ImageCache.set]
  split_ifs with h1 h2
  · exact find?_eraseKey_append _ _ _ h
  · apply find?_append_key_absent
    have habs : key ∉ c.entries.map Prod.fst :=
      find?_none_key_absent (Option.not_isSome_iff_eq_none.mp h1)
    intro hmem
    exact habs (List.map_subset _ (List.tail_subset _) hmem)
  · exact find?_append_key_absent _ _ _
      (find?_none_key_absent (Option.not_isSome_iff_eq_none.mp h1))

/-- C2: for an initialized pipeline whose cache keys are distinct (a
`Map` invariant), two `recognize` calls on images with equal logical
byte content, same options, caching not bypassed, hit the cache on the
second call: it returns the first call's result and runs neither
detection nor recognition, so each stage executes at most once across
the two calls; the first call leaves its result stored under the
fingerprint; and `noCache` or a custom dictionary bypasses the cache
entirely — full re-execution with the cache left untouched. -/
theorem recognizeWithCache_idempotent {α : Type} (runPipeline : List Nat → α)
    (st0 : OcrPipelineState α) (bytes1 bytes2 : List Nat)
    (opts : RecognizeOptions)
    (hwf : (st0.cache.entries.map Prod.fst).Nodup)
    (hnc : opts.noCache = false) (hnd : opts.hasDictionary = false)
    (hb : bytes2 = bytes1) :
    ((recognizeWithCache runPipeline
        (recognizeWithCache runPipeline st0 bytes1 opts).2 bytes2 opts).1
      = (recognizeWithCache runPipeline st0 bytes1 opts).1) ∧
    ((recognizeWithCache runPipeline
        (recognizeWithCache runPipeline st0 bytes1 opts).2 bytes2
          opts).2.detectorRuns
      = (recognizeWithCache runPipeline st0 bytes1 opts).2.detectorRuns) ∧
    ((recognizeWithCache runPipeline
        (recognizeWithCache runPipeline st0 bytes1 opts).2 bytes2
          opts).2.recognitorRuns
      = (recognizeWithCache runPipeline st0 bytes1 opts).2.recognitorRuns) ∧
    ((recognizeWithCache runPipeline st0 bytes1 opts).2.detectorRuns
      ≤ st0.detectorRuns + 1) ∧
    ((recognizeWithCache runPipeline st0 bytes1 opts).2.recognitorRuns
      ≤ st0.recognitorRuns + 1) ∧
    (ImageCache.find (recognizeWithCache runPipeline st0 bytes1 opts).2.cache
        (generateKey bytes1)
      = some (recognizeWithCache runPipeline st0 bytes1 opts).1) ∧
    (∀ opts2 : RecognizeOptions,
      opts2.noCache = true ∨ opts2.hasDictionary = true →
      recognizeWithCache runPipeline st0 bytes1 opts2
        = (runPipeline bytes1,
            { st0 with detectorRuns := st0.detectorRuns + 1,
                       recognitorRuns := st0.recognitorRuns + 1 })) := by
  subst hb
  have hbool : (opts.noCache || opts.hasDictionary) = false := by
    rw [hnc, hnd]
    rfl
  have hbypass : ∀ opts2 : RecognizeOptions,
      opts2.noCache = true ∨ opts2.hasDictionary = true →
      recognizeWithCache runPipeline st0 bytes2 opts2
        = (runPipeline bytes2,
            { st0 with detectorRuns := st0.detectorRuns + 1,
                       recognitorRuns := st0.recognitorRuns + 1 }) := by
    intro opts2 hopts
    have h2 : (opts2.noCache || opts2.hasDictionary) = true := by
      rcases hopts with h | h <;> simp [h]
    rw [recognizeWithCache, if_pos h2]
  cases hf : st0.cache.entries.find? (fun e => e.1 = generateKey bytes2) with
  | some e =>
      have hget : ImageCache.get st0.cache (generateKey bytes2)
          = (some e.2, { st0.cache with
              entries := eraseKey st0.cache.entries (generateKey bytes2)
                ++ [(generateKey bytes2, e.2)] }) := by
        rw [ImageCache.get, hf]
      have hc1 : recognizeWithCache runPipeline st0 bytes2 opts
          = (e.2, { st0 with cache := { st0.cache with
              entries := eraseKey st0.cache.entries (generateKey bytes2)
                ++ [(generateKey bytes2, e.2)] } }) := by
        rw [recognizeWithCache, if_neg (by simp [hbool])]
        simp only [hget]
      have hf2 : (eraseKey st0.cache.entries (generateKey bytes2)
            ++ [(generateKey bytes2, e.2)]).find?
              (fun x => x.1 = generateKey bytes2)
          = some (generateKey bytes2, e.2) :=
        find?_eraseKey_append _ _ _ hwf
      have hget2 : ImageCache.get
          { st0.cache with
            entries := eraseKey st0.cache.entries (generateKey bytes2)
              ++ [(generateKey bytes2, e.2)] } (generateKey bytes2)
          = (some e.2, { st0.cache with
              entries := eraseKey (eraseKey st0.cache.entries
                  (generateKey bytes2) ++ [(generateKey bytes2, e.2)])
                (generateKey bytes2) ++ [(generateKey bytes2, e.2)] }) := by
        rw [ImageCache.get]
        rw [hf2]
      refine ⟨?_, ?_, ?_, ?_, ?_, ?_, hbypass⟩
      · rw [hc1, recognizeWithCache, if_neg (by simp [hbool])]
        simp only [hget2]
      · rw [hc1, recognizeWithCache, if_neg (by simp [hbool])]
        simp only [hget2]
      · rw [hc1, recognizeWithCache, if_neg (by simp [hbool])]
        simp only [hget2]
      · rw [hc1]
        exact Nat.le_succ _
      · rw [hc1]
        exact Nat.le_succ _
      · simp only [hc1, ImageCache.find, hf2, Option.map_some']
  | none =>
      have hget : ImageCache.get st0.cache (generateKey bytes2)
          = (none, st0.cache) := by
        rw [ImageCache.get, hf]
      have hc1 : recognizeWithCache runPipeline st0 bytes2 opts
          = (runPipeline bytes2,
              { cache := ImageCache.set st0.cache (generateKey bytes2)
                  (runPipeline bytes2),
                detectorRuns := st0.detectorRuns + 1,
                recognitorRuns := st0.recognitorRuns + 1 }) := by
        rw [recognizeWithCache, if_neg (by simp [hbool])]
        simp only [hget]
      have hf2 : (ImageCache.set st0.cache (generateKey bytes2)
            (runPipeline bytes2)).entries.find?
              (fun x => x.1 = generateKey bytes2)
          = some (generateKey bytes2, runPipeline bytes2) :=
        find?_set_self _ _ _ hwf
      have hget2 : ImageCache.get
          (ImageCache.set st0.cache (generateKey bytes2) (runPipeline bytes2))
          (generateKey bytes2)
          = (some (runPipeline bytes2),
             { ImageCache.set st0.cache (generateKey bytes2)
                  (runPipeline bytes2) with
               entries := eraseKey (ImageCache.set st0.cache
                   (generateKey bytes2) (runPipeline bytes2)).entries
                   (generateKey bytes2)
                 ++ [(generateKey bytes2, runPipeline bytes2)] }) := by
        rw [ImageCache.get]
        rw [hf2]
      refine ⟨?_, ?_, ?_, ?_, ?_, ?_, hbypass⟩
      · rw [hc1, recognizeWithCache, if_neg (by simp [hbool])]
        simp only [hget2]
      · rw [hc1, recognizeWithCache, if_neg (by simp [hbool])]
        simp only [hget2]
      · rw [hc1, recognizeWithCache, if_neg (by simp [hbool])]
        simp only [hget2]
      · rw [hc1]
      · rw [hc1]
      · simp only [hc1, ImageCache.find, hf2, Option.map_some']

/-- Witness for C2 at a concrete pipeline: empty cache of capacity 10,
constant pipeline result 42, image bytes `[1, 2, 3]`, default options. -/
theorem recognizeWithCache_idempotent_witness :
    ((recognizeWithCache (fun _ => (42 : Nat))
        (recognizeWithCache (fun _ => (42 : Nat))
          ⟨⟨[], 10⟩, 0, 0⟩ [1, 2, 3] ⟨false, false, false⟩).2
        [1, 2, 3] ⟨false, false, false⟩).1
      = (recognizeWithCache (fun _ => (42 : Nat))
          ⟨⟨[], 10⟩, 0, 0⟩ [1, 2, 3] ⟨false, false, false⟩).1) ∧
    ((recognizeWithCache (fun _ => (42 : Nat))
        ⟨⟨[], 10⟩, 0, 0⟩ [1, 2, 3] ⟨false, false, false⟩).2.detectorRuns
      ≤ 0 + 1) :=
  ⟨(recognizeWithCache_idempotent (fun _ => (42 : Nat)) ⟨⟨[], 10⟩, 0, 0⟩
      [1, 2, 3] [1, 2, 3] ⟨false, false, false⟩ (by simp) rfl rfl rfl).1,
   (recognizeWithCache_idempotent (fun _ => (42 : Nat)) ⟨⟨[], 10⟩, 0, 0⟩
      [1, 2, 3] [1, 2, 3] ⟨false, false, false⟩ (by simp) rfl rfl rfl).2.2.2.1⟩

end PpuPaddleOcr
